import Mathlib

/-
Verification of the Arke IPFS index server (event log, index pointer,
batch ingest worker, and the disaster-recovery snapshot builder) against
its natural-language specification.

The Python sources are shallowly embedded: pure computations become Lean
functions, the IPFS/MFS store and HTTP side effects become explicit
function parameters (a dag_put allocator, read outcomes as Option/Except
values), and each handler or worker step becomes a state-passing function
returning its observable effects.  Machine integers are modelled as Nat
(the counters involved are non-negative and never overflow in Python).
-/

namespace Arke

/-! ## String ordering (Python lexicographic comparison)

Python compares strings lexicographically by Unicode code points.  We
model this with an executable comparator on the code-point lists of the
two strings, used wherever the source calls sorted() on strings. -/

/-- Lexicographic less-or-equal on code-point lists, as Python compares
strings. -/
def lexLe : List Nat → List Nat → Bool
  | [], _ => true
  | _ :: _, [] => false
  | a :: as, b :: bs =>
    if a < b then true
    else if b < a then false
    else lexLe as bs

/-- Python string less-or-equal (by Unicode code points). -/
def strLe (a b : String) : Bool := lexLe (a.data.map Char.toNat) (b.data.map Char.toNat)

/-- Python sorted() on a list of strings (any correct sort of distinct
strings yields the same list; we use insertion sort). -/
def sortedStr (l : List String) : List String := l.insertionSort (fun a b => strLe a b)

/-- Byte encoding of a string, modelling Python str.encode().  The CID
strings this system hashes are ASCII, where the UTF-8 bytes coincide with
the code points. -/
def strBytes (s : String) : List Nat := s.data.map Char.toNat

/-! ## Data model (api/models.py)

IndexPointer and Event mirror the pydantic models: Optional[str] fields
become Option String (None = JSON null), int counters become Nat.  An
IPLD link field {"/": cid} is modelled by the cid string it wraps. -/

/-- The index pointer document (models.py IndexPointer, arke/index-pointer@v2). -/
structure IndexPointer where
  schema : String := "arke/index-pointer@v2"
  event_head : Option String := none
  event_count : Nat := 0
  latest_snapshot_cid : Option String := none
  snapshot_event_cid : Option String := none
  snapshot_seq : Nat := 0
  snapshot_count : Nat := 0
  snapshot_ts : Option String := none
  total_count : Nat := 0
  last_snapshot_trigger : Option String := none
  last_updated : String
deriving Repr, DecidableEq

/-- An event-chain record (models.py Event, arke/event@v1).  tip_cid is
the manifest CID carried in the {"/": ...} link; prev is the previous
event's CID or null. -/
structure Event where
  schema : String := "arke/event@v1"
  type : String
  pi : String
  ver : Nat
  tip_cid : String
  ts : String
  prev : Option String := none
deriving Repr, DecidableEq

/-! ## api/index_pointer.py -/

/-- Outcome of the MFS files/read call on the pointer path: the parsed
pointer document, or an HTTP status error (Kubo answers 500 when the MFS
path does not exist). -/
inductive PointerRead where
  | ok (p : IndexPointer)
  | httpError (code : Nat)
deriving Repr, DecidableEq

/-- Model of index_pointer.get_index_pointer: return the parsed pointer;
on HTTP status 500 (file does not exist) return a freshly initialized
zero-valued pointer stamped with the current time; re-raise any other
HTTP status error. -/
def get_index_pointer (r : PointerRead) (now : String) : Except Nat IndexPointer :=
  match r with
  | .ok p => .ok p
  | .httpError code =>
    if code = 500 then
      .ok { event_head := none
            event_count := 0
            latest_snapshot_cid := none
            snapshot_event_cid := none
            snapshot_seq := 0
            snapshot_count := 0
            snapshot_ts := none
            total_count := 0
            last_snapshot_trigger := none
            last_updated := now }
    else .error code

/-! ## api/events.py append_event (the Event Log append contract)

dag_put is modelled as a function from the serialized event to its CID
(a CID is a deterministic function of the stored bytes).  The function
returns its observable effects: the event object it stored, the new CID,
and the pointer document it hands to index_pointer.update_index_pointer
(which then stamps last_updated before writing). -/

/-- Model of events.append_event: read the pointer, build the event with
prev = pointer.event_head (null when the chain is empty), dag_put it,
then update the pointer: event_head := new cid, event_count += 1, and
total_count += 1 only for create events. -/
def append_event (dag_put : Event → String) (pointer : IndexPointer) (now : String)
    (event_type pi : String) (ver : Nat) (tip_cid : String) :
    Event × String × IndexPointer :=
  let event : Event :=
    { type := event_type, pi := pi, ver := ver, tip_cid := tip_cid,
      ts := now, prev := pointer.event_head }
  let new_cid := dag_put event
  let pointer1 : IndexPointer :=
    { pointer with
      event_head := some new_cid,
      event_count := pointer.event_count + 1,
      total_count := pointer.total_count + (if event_type = "create" then 1 else 0) }
  (event, new_cid, pointer1)

/-! ## api/main.py POST /events/append and api/event_queue.py enqueue_event -/

/-- A JSON response body of the append route: either a bare string (the
event CID that events.append_event returns) or the queued-acknowledgement
object that event_queue.enqueue_event returns. -/
inductive AppendResponse where
  | cidString (cid : String)
  | queuedBody (queued success : Bool)
deriving Repr, DecidableEq

/-- Model of event_queue.enqueue_event's return value: the item is put on
the in-memory queue and the dict \x7bqueued: true, success: true\x7d is returned. -/
def enqueue_event_response : AppendResponse := .queuedBody true true

/-- Model of the POST /events/append route body in api/main.py: it calls
events.append_event (the synchronous direct append) and returns its result,
which is the new event's CID string.  The updated pointer it returns is the
pointer write performed inside the request. -/
def route_events_append (dag_put : Event → String) (pointer : IndexPointer) (now : String)
    (request_type request_pi : String) (request_ver : Nat) (request_tip_cid : String) :
    AppendResponse × IndexPointer :=
  let r := append_event dag_put pointer now request_type request_pi request_ver request_tip_cid
  (.cidString r.2.1, r.2.2)

/-! ## dr/build_snapshot.py update_index_pointer (pointer write on snapshot completion)

The input pointer is the raw JSON document read at build start (a Python
dict), modelled as a lookup function from field name to JSON value; the
written document is the literal dict of the source, modelled as an
association list in the same key order. -/

/-- A JSON scalar value as it appears in the pointer document. -/
inductive JVal where
  | s (v : String)
  | n (v : Nat)
  | null
deriving Repr, DecidableEq

/-- Model of dr/build_snapshot.py update_index_pointer: the new pointer
document written to MFS on snapshot completion.  event_head and
event_count are taken from the pointer read at build start via
pointer.get (defaults null and 0); every other field is freshly set. -/
def update_index_pointer_doc (pointer : String → Option JVal) (snapshot_cid : String)
    (seq : Nat) (timestamp : String) (total_count : Nat) : List (String × JVal) :=
  [("schema", .s "arke/index-pointer@v2"),
   ("event_head", (pointer "event_head").getD .null),
   ("event_count", (pointer "event_count").getD (.n 0)),
   ("latest_snapshot_cid", .s snapshot_cid),
   ("snapshot_event_cid", (pointer "event_head").getD .null),
   ("snapshot_seq", .n seq),
   ("snapshot_count", .n total_count),
   ("snapshot_ts", .s timestamp),
   ("total_count", .n total_count),
   ("last_updated", .s timestamp)]

/-! ## api/event_queue.py _process_batch (the batch worker)

A queued item carries the fields enqueue_event puts on the queue.  The
dag_put of one event may fail (network or store error), modelled as an
Option-returning put.  The worker's observable effects are the final
in-memory state, the list of successfully stored events (the ghost
chain, in write order, with their CIDs), and the list of pointer
documents handed to index_pointer.update_index_pointer (the source
writes the pointer at most once, after the loop, and only when at least
one event was written). -/

/-- An item of the in-memory event queue (the dict built by
event_queue.enqueue_event; queued_at is a monitoring field the worker
never reads and is omitted). -/
structure QueuedEvent where
  type : String
  pi : String
  ver : Nat
  tip_cid : String
  ts : String
deriving Repr, DecidableEq

/-- The batch worker's running state inside _process_batch, plus the
ghost list of successful writes (cid together with the stored event). -/
structure BatchState where
  current_head : Option String
  event_count : Nat
  total_count : Nat
  events_written : Nat
  chain : List (String × Event)
deriving Repr, DecidableEq

/-- The event object _process_batch builds for a queued item, with prev
set to the running head. -/
def queuedEventObj (item : QueuedEvent) (head : Option String) : Event :=
  { type := item.type, pi := item.pi, ver := item.ver, tip_cid := item.tip_cid,
    ts := item.ts, prev := head }

/-- One iteration of the batch loop in _process_batch: build the event
with prev = the running head, try to store it; on success advance the
running head and bump the counters, on failure change nothing and
continue with the next item. -/
def process_item (put : Event → Option String) (st : BatchState) (item : QueuedEvent) :
    BatchState :=
  let event : Event := queuedEventObj item st.current_head
  match put event with
  | none => st
  | some new_cid =>
    { current_head := some new_cid,
      event_count := st.event_count + 1,
      total_count := st.total_count + (if item.type = "create" then 1 else 0),
      events_written := st.events_written + 1,
      chain := st.chain ++ [(new_cid, event)] }

/-- Model of event_queue._process_batch: read the pointer once, process
every item of the batch in order, then write the pointer once (with
event_head = the final running head) when at least one event was
written, and not at all otherwise.  Returns the final state and the list
of pointer writes performed. -/
def process_batch (put : Event → Option String) (pointer : IndexPointer)
    (batch : List QueuedEvent) : BatchState × List IndexPointer :=
  let st0 : BatchState :=
    { current_head := pointer.event_head, event_count := pointer.event_count,
      total_count := pointer.total_count, events_written := 0, chain := [] }
  let st := batch.foldl (process_item put) st0
  let writes :=
    if st.events_written > 0 then
      [{ pointer with
         event_head := st.current_head,
         event_count := st.event_count,
         total_count := st.total_count }]
    else []
  (st, writes)

/-- The chain of stored events hangs together: the first stored event's
prev is the head read at batch start, and every later stored event's
prev is the CID of the stored event just before it. -/
def ChainLinked : Option String → List (String × Event) → Prop
  | _, [] => True
  | h, (cid, e) :: rest => e.prev = h ∧ ChainLinked (some cid) rest

/-- The running head after a list of successful writes: the CID of the
last stored event, or the initial head when nothing was stored yet. -/
def lastHead (h0 : Option String) (chain : List (String × Event)) : Option String :=
  match chain.getLast? with
  | some ce => some ce.1
  | none => h0

/-! ## dr/build_snapshot.py SimpleMerkleTree and build_merkle_root

The tree is parametric in the hash function h (SHA-256 in the source):
the levels are built bottom-up from the hashed leaves, each internal
node hashing left ++ right, an odd level duplicating its last node, and
the empty tree collapsing to h applied to the empty byte string. -/

/-- One bottom-up level step of SimpleMerkleTree._build_tree: hash
adjacent pairs, duplicating the last node of an odd-length level. -/
def hashPairs (h : List Nat → List Nat) : List (List Nat) → List (List Nat)
  | [] => []
  | [x] => [h (x ++ x)]
  | x :: y :: rest => h (x ++ y) :: hashPairs h rest

theorem hashPairs_length (h : List Nat → List Nat) (l : List (List Nat)) :
    (hashPairs h l).length = (l.length + 1) / 2 := by
  induction l using hashPairs.induct h with
  | case1 => simp [hashPairs]
  | case2 x => simp [hashPairs]
  | case3 x y rest ih => simp [hashPairs, ih]; omega

/-- Collapse a level to the root by repeated pairing, as the while loop
of SimpleMerkleTree._build_tree does; level [r] yields r. -/
def rootOfLevel (h : List Nat → List Nat) (level : List (List Nat)) : List Nat :=
  match level with
  | [] => h []
  | [r] => r
  | x :: y :: rest => rootOfLevel h (hashPairs h (x :: y :: rest))
termination_by level.length
decreasing_by
  have := hashPairs_length h (x :: y :: rest)
  simp at this ⊢
  omega

/-- Root of SimpleMerkleTree over the given raw leaves: the empty tree's
root is h of the empty byte string, otherwise the leaves are hashed and
the tree built bottom-up. -/
def merkleRoot (h : List Nat → List Nat) (leaves : List (List Nat)) : List Nat :=
  match leaves with
  | [] => h []
  | l => rootOfLevel h (l.map h)

/-- Model of build_merkle_root: sort the CID strings, byte-encode each
as a leaf, and return the tree root together with the sorted CID list.
The Python input is a set; the argument here lists its elements (in any
order: the sort normalizes it). -/
def build_merkle_root (h : List Nat → List Nat) (cids : List String) :
    List Nat × List String :=
  let sorted_cids := sortedStr cids
  let leaves := sorted_cids.map strBytes
  (merkleRoot h leaves, sorted_cids)

/-! ## dr/build_snapshot.py generate_consistency_info -/

/-- The consistency record of a v2 snapshot. -/
structure ConsistencyInfo where
  prev_cid_count : Nat
  curr_cid_count : Nat
  added_count : Nat
  deleted_count : Nat
  is_append_only : Bool
deriving Repr, DecidableEq

/-- Model of generate_consistency_info: deleted = prev minus curr,
added = curr minus prev, and the append-only flag is deleted being
empty (len(deleted) == 0). -/
def generate_consistency_info (prev_cids curr_cids : Finset String) : ConsistencyInfo :=
  let deleted := prev_cids \ curr_cids
  let added := curr_cids \ prev_cids
  { prev_cid_count := prev_cids.card,
    curr_cid_count := curr_cids.card,
    added_count := added.card,
    deleted_count := deleted.card,
    is_append_only := deleted.card = 0 }

/-! ## dr/build_snapshot.py collect_version_chain_cids

A manifest holds a components map (whose extracted CID values may be
empty when the link is null, which the source skips with a falsiness
check) and an optional prev link.  The store maps a CID to its manifest;
a fetch failure or missing CID is none and breaks the walk.  The loop
guard is: current truthy and len(cids) < 100.  Alongside the collected
CID list we return the ghost list of manifests actually fetched during
the walk, for stating what each visited manifest contributes. -/

/-- A version manifest as the walk reads it: the CID values of its
components map and its prev link. -/
structure Manifest where
  components : List String
  prev : Option String
deriving Repr, DecidableEq

/-- The loop of collect_version_chain_cids, carrying the accumulated
cids list; returns the final list and the ghost trace of loop
iterations, one per hop: the CID visited together with the fetched
manifest (none when the fetch failed and the loop broke). -/
def collectVCC (store : String → Option Manifest) (cids : List String) (current : String) :
    List String × List (String × Option Manifest) :=
  if current = "" ∨ 100 ≤ cids.length then (cids, [])
  else
    let cids1 := cids ++ [current]
    match store current with
    | none => (cids1, [(current, none)])
    | some m =>
      let cids2 := cids1 ++ m.components.filter (fun c => c ≠ "")
      match m.prev with
      | none => (cids2, [(current, some m)])
      | some p =>
        let r := collectVCC store cids2 p
        (r.1, (current, some m) :: r.2)
termination_by 100 - cids.length
decreasing_by
  simp_all [List.length_append]
  omega

/-- Model of collect_version_chain_cids: walk the prev chain from the
tip, collecting each visited manifest's CID and its component CIDs,
bounded by the 100-entry safety limit. -/
def collect_version_chain_cids (store : String → Option Manifest) (tip_cid : String) :
    List String :=
  (collectVCC store [] tip_cid).1

/-! ## dr/build_snapshot.py walk_event_chain / walk_event_chain_incremental

The event chain reachable from event_head by prev links is represented
as the finite list of (event CID, event) pairs in walk order: element
i+1 is the event that element i's prev link names, and the list ends
where prev is null.  CIDs are hash links, so the reachable chain is
finite and acyclic; a dag/get failure mid-walk breaks the loop, which is
the same as handing the walk the chain truncated at that point.  Tip
files are read from MFS per PI (tips : pi to tip CID, none = read
failure, which skips the event), and the manifest fetch that supplies
ver defaults to 0 on failure or on a manifest without a ver field. -/

/-- An event as the snapshot walks read it (the walk consumes type, pi
and ts; prev is carried by the chain-list representation). -/
structure ChainEvent where
  type : String
  pi : String
  ts : String
deriving Repr, DecidableEq

/-- A manifest as the walks read it: only its optional ver field. -/
structure VerManifest where
  ver : Option Nat
deriving Repr, DecidableEq

/-- An entry of snapshot.entries (pi, ver, tip_cid, ts, chain_cid). -/
structure SnapEntry where
  pi : String
  ver : Nat
  tip_cid : String
  ts : String
  chain_cid : String
deriving Repr, DecidableEq

/-- The ver a walk records for a tip: manifest.get with default 0, and 0
again when the manifest fetch itself fails. -/
def verOf (manifests : String → Option VerManifest) (tip : String) : Nat :=
  match manifests tip with
  | none => 0
  | some m => m.ver.getD 0

/-- Model of walk_event_chain (full traversal): walk the whole chain
newest-first, skip events with no PI and events whose PI was already
seen, mark a PI seen before its tip read (so a failed tip read drops the
PI from the snapshot), and emit one entry per first-seen PI in walk
order.  The source streams the entries to the checkpoint file; here they
are the returned list. -/
def walk_event_chain (tips : String → Option String) (manifests : String → Option VerManifest) :
    List (String × ChainEvent) → List String → List SnapEntry
  | [], _ => []
  | (cid, ev) :: rest, seen_pis =>
    if ev.pi = "" then walk_event_chain tips manifests rest seen_pis
    else if ev.pi ∈ seen_pis then walk_event_chain tips manifests rest seen_pis
    else
      match tips ev.pi with
      | none => walk_event_chain tips manifests rest (ev.pi :: seen_pis)
      | some tip =>
        { pi := ev.pi, ver := verOf manifests tip, tip_cid := tip,
          ts := ev.ts, chain_cid := cid } ::
          walk_event_chain tips manifests rest (ev.pi :: seen_pis)

/-- Python dict assignment d[k] = v on an insertion-ordered dict: an
existing key keeps its position and gets the new value, a new key is
appended. -/
def dictSet (d : List (String × SnapEntry)) (k : String) (v : SnapEntry) :
    List (String × SnapEntry) :=
  if d.any (fun p => p.1 = k) then
    d.map (fun p => if p.1 = k then (k, v) else p)
  else d ++ [(k, v)]

/-- Model of walk_event_chain_incremental: walk only the new events from
event_head until the stop CID (or the chain end), overwriting or adding
the dict entry for each event's PI; the dict hydrated from the previous
snapshot is the starting value.  The source then writes the dict's
values to the checkpoint file in dict order, which is the returned
association list's order. -/
def walk_event_chain_incremental (tips : String → Option String)
    (manifests : String → Option VerManifest) (stop_at_cid : String) :
    List (String × ChainEvent) → List (String × SnapEntry) → List (String × SnapEntry)
  | [], prev_entries => prev_entries
  | (cid, ev) :: rest, prev_entries =>
    if cid = "" ∨ cid = stop_at_cid then prev_entries
    else if ev.pi = "" then walk_event_chain_incremental tips manifests stop_at_cid rest prev_entries
    else
      match tips ev.pi with
      | none => walk_event_chain_incremental tips manifests stop_at_cid rest prev_entries
      | some tip =>
        walk_event_chain_incremental tips manifests stop_at_cid rest
          (dictSet prev_entries ev.pi
            { pi := ev.pi, ver := verOf manifests tip, tip_cid := tip,
              ts := ev.ts, chain_cid := cid })

/-- Model of the entries assembly in build_snapshot_json: read the
checkpoint rows and reverse them (entries.reverse()); no other
reordering happens.  For a full build the checkpoint rows are the full
walk's output, emitted in walk order. -/
def build_snapshot_entries_full (tips : String → Option String)
    (manifests : String → Option VerManifest) (chain : List (String × ChainEvent)) :
    List SnapEntry :=
  (walk_event_chain tips manifests chain []).reverse

/-- Entries of an incremental build: the checkpoint rows are the
hydrated dict's values in dict order, and build_snapshot_json reverses
them. -/
def build_snapshot_entries_incremental (tips : String → Option String)
    (manifests : String → Option VerManifest) (stop_at_cid : String)
    (chain : List (String × ChainEvent)) (prev_entries : List (String × SnapEntry)) :
    List SnapEntry :=
  ((walk_event_chain_incremental tips manifests stop_at_cid chain prev_entries).map
    Prod.snd).reverse

/-- The entries list is in chronological order, oldest first, comparing
the ts strings as Python does. -/
def EntriesChronological (entries : List SnapEntry) : Prop :=
  entries.Pairwise (fun a b => strLe a.ts b.ts = true)

/-- The value an insertion-ordered dict holds for a key: the entry of
the first pair carrying that key, none when absent. -/
def lookupEntry (k : String) : List (String × SnapEntry) → Option SnapEntry
  | [] => none
  | (k2, v) :: rest => if k2 = k then some v else lookupEntry k rest

/-- The part of the chain an incremental walk actually processes: the
events before the stop CID (or before a falsy CID, or the whole chain
when neither occurs). -/
def incProcessed (stop_at_cid : String) (chain : List (String × ChainEvent)) :
    List (String × ChainEvent) :=
  chain.takeWhile (fun q => !(decide (q.1 = "" ∨ q.1 = stop_at_cid)))

/-! ## Concrete test fixtures

A small store for exercising the snapshot walks: entity A has tip
tipA2 at version 2, entity B has tip tipB at version 1. -/

/-- Tip-file reads for the fixtures. -/
def tipsCX : String → Option String :=
  fun pi => if pi = "A" then some "tipA2" else if pi = "B" then some "tipB" else none

/-- Manifest reads for the fixtures. -/
def manifestsCX : String → Option VerManifest :=
  fun tip =>
    if tip = "tipA2" then some ⟨some 2⟩
    else if tip = "tipB" then some ⟨some 1⟩
    else none

/-- An event chain with one new event for B and one for A since the
last snapshot at e1. -/
def chainCX : List (String × ChainEvent) :=
  [("e3", ⟨"create", "B", "2024-01-03T00:00:00Z"⟩),
   ("e2", ⟨"update", "A", "2024-01-02T00:00:00Z"⟩),
   ("e1", ⟨"create", "A", "2024-01-01T00:00:00Z"⟩)]

/-- The entries dict hydrated from the previous snapshot: only A. -/
def prevEntriesCX : List (String × SnapEntry) :=
  [("A", ⟨"A", 1, "tipA1", "2024-01-01T00:00:00Z", "e1"⟩)]

/-- An event chain whose delta (everything before the stop CID f1)
holds two events for the same PI A. -/
def chainCX4 : List (String × ChainEvent) :=
  [("f3", ⟨"update", "A", "2024-01-03T00:00:00Z"⟩),
   ("f2", ⟨"update", "A", "2024-01-02T00:00:00Z"⟩),
   ("f1", ⟨"create", "A", "2024-01-01T00:00:00Z"⟩)]

/-! ## Theorems -/

/-- C1.  The POST /events/append route of api/main.py does not enqueue:
it returns the bare event-CID string produced by the synchronous
events.append_event — never the \x7bqueued: true, success: true\x7d body that
event_queue.enqueue_event returns — and the durable append (the dag_put
and the pointer update incrementing event_count) happens inside the
request. -/
theorem c1_route_append_is_synchronous (dag_put : Event → String) (pointer : IndexPointer)
    (now ty pi : String) (ver : Nat) (tip : String) :
    (route_events_append dag_put pointer now ty pi ver tip).1 =
      .cidString (append_event dag_put pointer now ty pi ver tip).2.1
  ∧ (route_events_append dag_put pointer now ty pi ver tip).1 ≠ enqueue_event_response
  ∧ (route_events_append dag_put pointer now ty pi ver tip).2.event_count =
      pointer.event_count + 1 := by
  refine ⟨rfl, ?_, rfl⟩
  simp [route_events_append, enqueue_event_response]

/-- C2.  The Event Log append contract (events.append_event): the stored
event's prev equals the pointer's event_head read at the start (null
when the chain is empty), the stored CID is the dag_put of that event,
and the pointer written back has event_head = the new CID, event_count
incremented by exactly one, and total_count incremented by exactly one
if and only if the event type is create. -/
theorem c2_append_event_contract (dag_put : Event → String) (pointer : IndexPointer)
    (now ty pi : String) (ver : Nat) (tip : String) :
    (append_event dag_put pointer now ty pi ver tip).1.prev = pointer.event_head
  ∧ (append_event dag_put pointer now ty pi ver tip).2.1 =
      dag_put (append_event dag_put pointer now ty pi ver tip).1
  ∧ (append_event dag_put pointer now ty pi ver tip).2.2.event_head =
      some (append_event dag_put pointer now ty pi ver tip).2.1
  ∧ (append_event dag_put pointer now ty pi ver tip).2.2.event_count =
      pointer.event_count + 1
  ∧ ((append_event dag_put pointer now ty pi ver tip).2.2.total_count =
      pointer.total_count + 1 ↔ ty = "create")
  ∧ (ty ≠ "create" →
      (append_event dag_put pointer now ty pi ver tip).2.2.total_count =
        pointer.total_count) := by
  by_cases hty : ty = "create" <;> simp [append_event, hty]

/-- C6.  generate_consistency_info returns the cardinalities of the two
CID sets, of the added difference and of the deleted difference, and its
append-only flag holds exactly when no CID of the previous set is
missing from the current one; for P included in C with ten new CIDs it
reports added 10, deleted 0, append-only true. -/
theorem c6_generate_consistency_info_spec (P C : Finset String) :
    (generate_consistency_info P C).prev_cid_count = P.card
  ∧ (generate_consistency_info P C).curr_cid_count = C.card
  ∧ (generate_consistency_info P C).added_count = (C \ P).card
  ∧ (generate_consistency_info P C).deleted_count = (P \ C).card
  ∧ ((generate_consistency_info P C).is_append_only = true ↔ P \ C = ∅)
  ∧ (P ⊆ C → (C \ P).card = 10 →
        (generate_consistency_info P C).added_count = 10
      ∧ (generate_consistency_info P C).deleted_count = 0
      ∧ (generate_consistency_info P C).is_append_only = true) := by
  refine ⟨rfl, rfl, rfl, rfl, ?_, ?_⟩
  · simp [generate_consistency_info, Finset.card_eq_zero]
  · intro hsub h10
    have hempty : P \ C = ∅ := Finset.sdiff_eq_empty_iff_subset.mpr hsub
    simp [generate_consistency_info, hempty, h10]

/-- C9.  When the pointer path does not exist in MFS (the store answers
HTTP 500), get_index_pointer does not raise: it returns a zero-valued
pointer — all counts 0, all CID and timestamp fields null — stamped with
the current time. -/
theorem c9_get_index_pointer_missing_path (now : String) :
    get_index_pointer (.httpError 500) now =
      .ok { event_head := none
            event_count := 0
            latest_snapshot_cid := none
            snapshot_event_cid := none
            snapshot_seq := 0
            snapshot_count := 0
            snapshot_ts := none
            total_count := 0
            last_snapshot_trigger := none
            last_updated := now } := by
  rfl

/-- C10.  The pointer document that the snapshot builder writes on
completion has exactly the ten fields schema, event_head, event_count,
latest_snapshot_cid, snapshot_event_cid, snapshot_seq, snapshot_count,
snapshot_ts, total_count, last_updated — in particular any
last_snapshot_trigger stamped earlier by the scheduler is absent — and
its event_head and event_count are copied from the pointer document as
read at build start. -/
theorem c10_snapshot_pointer_write_frame (pointer : String → Option JVal)
    (snapshot_cid : String) (seq : Nat) (timestamp : String) (total_count : Nat) :
    (update_index_pointer_doc pointer snapshot_cid seq timestamp total_count).map Prod.fst =
      ["schema", "event_head", "event_count", "latest_snapshot_cid",
       "snapshot_event_cid", "snapshot_seq", "snapshot_count", "snapshot_ts",
       "total_count", "last_updated"]
  ∧ "last_snapshot_trigger" ∉
      (update_index_pointer_doc pointer snapshot_cid seq timestamp total_count).map Prod.fst
  ∧ (update_index_pointer_doc pointer snapshot_cid seq timestamp total_count).lookup
      "event_head" = some ((pointer "event_head").getD .null)
  ∧ (update_index_pointer_doc pointer snapshot_cid seq timestamp total_count).lookup
      "event_count" = some ((pointer "event_count").getD (.n 0))
  ∧ (update_index_pointer_doc pointer snapshot_cid seq timestamp total_count).lookup
      "snapshot_event_cid" = some ((pointer "event_head").getD .null) := by
  refine ⟨rfl, ?_, rfl, rfl, rfl⟩
  simp [update_index_pointer_doc]

/-- C5.  The Merkle root construction of SimpleMerkleTree and
build_merkle_root, stated for every hash function h (SHA-256 in the
source): the empty CID set yields h of the empty byte string, the CID
list is returned sorted, and over the set of "a", "b" and "c" (given
unsorted) the root is h(h(h(a-bytes) ++ h(b-bytes)) ++ h(h(c-bytes) ++
h(c-bytes))) — leaves hashed after sorting and the odd last node
duplicated. -/
theorem c5_build_merkle_root_spec (h : List Nat → List Nat) :
    (build_merkle_root h []).1 = h []
  ∧ (∀ cids, (build_merkle_root h cids).2 = sortedStr cids)
  ∧ (build_merkle_root h ["b", "c", "a"]).2 = ["a", "b", "c"]
  ∧ (build_merkle_root h ["b", "c", "a"]).1 =
      h (h (h (strBytes "a") ++ h (strBytes "b")) ++
         h (h (strBytes "c") ++ h (strBytes "c"))) := by
  have hs : sortedStr ["b", "c", "a"] = ["a", "b", "c"] := by decide
  refine ⟨rfl, fun cids => rfl, hs, ?_⟩
  show (merkleRoot h ((sortedStr ["b", "c", "a"]).map strBytes)) = _
  rw [hs]
  simp [merkleRoot, rootOfLevel, hashPairs]

theorem lastHead_cons (h0 : Option String) (ce : String × Event)
    (rest : List (String × Event)) :
    lastHead h0 (ce :: rest) = lastHead (some ce.1) rest := by
  cases rest with
  | nil => rfl
  | cons ce2 rest2 =>
    simp only [lastHead, List.getLast?_cons_cons]
    rcases hgl : (ce2 :: rest2).getLast? with _ | x
    · simp at hgl
    · rfl

theorem chainLinked_append (h0 : Option String) (chain : List (String × Event))
    (c : String) (e : Event) (hlink : ChainLinked h0 chain)
    (hprev : e.prev = lastHead h0 chain) :
    ChainLinked h0 (chain ++ [(c, e)]) := by
  induction chain generalizing h0 with
  | nil =>
    simp [lastHead] at hprev
    exact ⟨hprev, trivial⟩
  | cons ce rest ih =>
    obtain ⟨h1, h2⟩ := hlink
    rw [lastHead_cons] at hprev
    exact ⟨h1, ih _ h2 hprev⟩

theorem process_batch_fold_inv (put : Event → Option String) (h0 : Option String) :
    ∀ (batch : List QueuedEvent) (st : BatchState),
      ChainLinked h0 st.chain → st.current_head = lastHead h0 st.chain →
      (∀ ce ∈ st.chain, put ce.2 = some ce.1) →
      ChainLinked h0 (batch.foldl (process_item put) st).chain
      ∧ (batch.foldl (process_item put) st).current_head =
          lastHead h0 (batch.foldl (process_item put) st).chain
      ∧ (∀ ce ∈ (batch.foldl (process_item put) st).chain, put ce.2 = some ce.1) := by
  intro batch
  induction batch with
  | nil => exact fun st hl hh hm => ⟨hl, hh, hm⟩
  | cons item rest ih =>
    intro st hl hh hm
    simp only [List.foldl_cons]
    rcases hput : put (queuedEventObj item st.current_head) with _ | new_cid
    · have hstep : process_item put st item = st := by
        simp [process_item, hput]
      rw [hstep]
      exact ih st hl hh hm
    · have hstep : process_item put st item =
          { current_head := some new_cid,
            event_count := st.event_count + 1,
            total_count := st.total_count + (if item.type = "create" then 1 else 0),
            events_written := st.events_written + 1,
            chain := st.chain ++ [(new_cid, queuedEventObj item st.current_head)] } := by
        simp [process_item, hput]
      rw [hstep]
      refine ih _ ?_ ?_ ?_
      · refine chainLinked_append h0 st.chain _ _ hl ?_
        simpa [queuedEventObj] using hh
      · simp [lastHead, List.getLast?_concat]
      · intro ce hce
        rcases List.mem_append.mp hce with hce | hce
        · exact hm ce hce
        · simp at hce
          rw [hce]
          exact hput

/-- C8.  The batch worker (_process_batch) isolates per-item failures:
the pointer is written at most once per batch (and, when at least one
event was stored, exactly once, after the loop, carrying the final
running head and counters); the stored events form a chain whose prev
links start at the head read at batch start and then follow the stored
CIDs in order; every event in the chain really was stored (a failed
dag_put never appears and never corrupts a prev link); and a failing
first item leaves the batch result exactly as if the item had not been
there. -/
theorem c8_process_batch_failure_isolation (put : Event → Option String)
    (pointer : IndexPointer) (batch : List QueuedEvent) :
    (process_batch put pointer batch).2.length ≤ 1
  ∧ ChainLinked pointer.event_head (process_batch put pointer batch).1.chain
  ∧ (∀ ce ∈ (process_batch put pointer batch).1.chain, put ce.2 = some ce.1)
  ∧ (∀ item : QueuedEvent,
       put (queuedEventObj item pointer.event_head) = none →
       process_batch put pointer (item :: batch) = process_batch put pointer batch)
  ∧ ((process_batch put pointer batch).1.events_written > 0 →
       (process_batch put pointer batch).2 =
         [{ pointer with
            event_head := (process_batch put pointer batch).1.current_head,
            event_count := (process_batch put pointer batch).1.event_count,
            total_count := (process_batch put pointer batch).1.total_count }]) := by
  have hinv := process_batch_fold_inv put pointer.event_head batch
    { current_head := pointer.event_head, event_count := pointer.event_count,
      total_count := pointer.total_count, events_written := 0, chain := [] }
    trivial rfl (by intro ce hce; simp at hce)
  refine ⟨?_, hinv.1, hinv.2.2, ?_, ?_⟩
  · simp only [process_batch]
    split <;> simp
  · intro item hput
    simp [process_batch, List.foldl_cons, process_item, hput]
  · intro hw
    simp only [process_batch] at hw ⊢
    simp only [if_pos hw]

theorem collectVCC_acc_isPrefix (store : String → Option Manifest)
    (cids : List String) (current : String) :
    cids <+: (collectVCC store cids current).1 := by
  induction cids, current using collectVCC.induct store with
  | case1 cids current hguard =>
    rw [collectVCC, if_pos hguard]
  | case2 cids current hguard hstore =>
    rw [collectVCC, if_neg hguard]
    simp only [hstore]
    exact ⟨[current], rfl⟩
  | case3 cids current hguard m hstore hprev =>
    rw [collectVCC, if_neg hguard]
    simp only [hstore, hprev]
    exact ⟨[current] ++ m.components.filter (fun c => c ≠ ""), by simp⟩
  | case4 cids current hguard cids1 m hstore cids2 p hprev ih =>
    rw [collectVCC, if_neg hguard]
    simp only [hstore, hprev]
    refine List.IsPrefix.trans ?_ ih
    refine ⟨[current] ++ m.components.filter (fun c => c ≠ ""), ?_⟩
    simp [cids2, cids1]

theorem collectVCC_trace_length (store : String → Option Manifest)
    (cids : List String) (current : String) :
    (collectVCC store cids current).2.length ≤ 100 - cids.length := by
  induction cids, current using collectVCC.induct store with
  | case1 cids current hguard =>
    rw [collectVCC, if_pos hguard]
    simp
  | case2 cids current hguard hstore =>
    rw [collectVCC, if_neg hguard]
    simp only [hstore]
    simp only [not_or, not_le] at hguard
    simp only [List.length_cons, List.length_nil]
    omega
  | case3 cids current hguard m hstore hprev =>
    rw [collectVCC, if_neg hguard]
    simp only [hstore, hprev]
    simp only [not_or, not_le] at hguard
    simp only [List.length_cons, List.length_nil]
    omega
  | case4 cids current hguard cids1 m hstore cids2 p hprev ih =>
    rw [collectVCC, if_neg hguard]
    simp only [hstore, hprev]
    simp only [not_or, not_le] at hguard
    simp only [List.length_cons]
    simp only [cids2, cids1] at ih
    have hlen :
        cids.length + 1 ≤
          (cids ++ [current] ++ List.filter (fun c => decide (c ≠ "")) m.components).length := by
      simp
    omega

theorem collectVCC_trace_mem (store : String → Option Manifest)
    (cids : List String) (current : String) :
    ∀ cm ∈ (collectVCC store cids current).2,
      cm.1 ∈ (collectVCC store cids current).1
    ∧ ∀ m, cm.2 = some m → ∀ c ∈ m.components, c ≠ "" →
        c ∈ (collectVCC store cids current).1 := by
  induction cids, current using collectVCC.induct store with
  | case1 cids current hguard =>
    rw [collectVCC, if_pos hguard]
    simp
  | case2 cids current hguard hstore =>
    rw [collectVCC, if_neg hguard]
    simp only [hstore]
    intro cm hcm
    simp at hcm
    rw [hcm]
    simp
  | case3 cids current hguard m hstore hprev =>
    rw [collectVCC, if_neg hguard]
    simp only [hstore, hprev]
    intro cm hcm
    simp at hcm
    rw [hcm]
    refine ⟨by simp, ?_⟩
    intro m2 hm2 c hc hcne
    cases hm2
    refine List.mem_append.mpr (Or.inr ?_)
    exact List.mem_filter.mpr ⟨hc, by simp [hcne]⟩
  | case4 cids current hguard cids1 m hstore cids2 p hprev ih =>
    rw [collectVCC, if_neg hguard]
    simp only [hstore, hprev]
    intro cm hcm
    have hpre : cids2 <+: (collectVCC store cids2 p).1 :=
      collectVCC_acc_isPrefix store cids2 p
    rcases List.mem_cons.mp hcm with hcm | hcm
    · rw [hcm]
      constructor
      · refine hpre.subset ?_
        simp [cids2, cids1]
      · intro m2 hm2 c hc hcne
        cases hm2
        refine hpre.subset ?_
        refine List.mem_append.mpr (Or.inr ?_)
        exact List.mem_filter.mpr ⟨hc, by simp [hcne]⟩
    · exact ih cm hcm

/-- C7.  The per-entity version-chain walk (collect_version_chain_cids)
always terminates after at most 100 hops — the loop guard bounds the
collected list at 100 entries and every hop appends at least the
visited CID — and each visited manifest contributes its own CID and
every non-null CID of its components map to the collected list. -/
theorem c7_collect_version_chain_bounded (store : String → Option Manifest)
    (tip_cid : String) :
    (collectVCC store [] tip_cid).2.length ≤ 100
  ∧ ∀ cm ∈ (collectVCC store [] tip_cid).2,
      cm.1 ∈ collect_version_chain_cids store tip_cid
    ∧ ∀ m, cm.2 = some m → ∀ c ∈ m.components, c ≠ "" →
        c ∈ collect_version_chain_cids store tip_cid := by
  constructor
  · simpa using collectVCC_trace_length store [] tip_cid
  · exact collectVCC_trace_mem store [] tip_cid

theorem walk_ts_sublist (tips : String → Option String) (ms : String → Option VerManifest) :
    ∀ (chain : List (String × ChainEvent)) (seen : List String),
      ((walk_event_chain tips ms chain seen).map (fun e => e.ts)).Sublist
        (chain.map (fun p => p.2.ts)) := by
  intro chain
  induction chain with
  | nil =>
    intro seen
    simp [walk_event_chain]
  | cons ce rest ih =>
    intro seen
    obtain ⟨cid0, ev0⟩ := ce
    by_cases hpi : ev0.pi = ""
    · simp only [walk_event_chain, if_pos hpi, List.map_cons]
      exact (ih seen).cons _
    · by_cases hseen : ev0.pi ∈ seen
      · simp only [walk_event_chain, if_neg hpi, if_pos hseen, List.map_cons]
        exact (ih seen).cons _
      · rcases htip : tips ev0.pi with _ | tip
        · simp only [walk_event_chain, if_neg hpi, if_neg hseen, htip, List.map_cons]
          exact (ih _).cons _
        · simp only [walk_event_chain, if_neg hpi, if_neg hseen, htip, List.map_cons]
          exact (ih _).cons₂ _

theorem walk_event_chain_first_encounter (tips : String → Option String)
    (ms : String → Option VerManifest) :
    ∀ (chain : List (String × ChainEvent)) (seen : List String) (ent : SnapEntry),
      ent ∈ walk_event_chain tips ms chain seen →
      ent.pi ∉ seen ∧ ent.pi ≠ "" ∧
      ∃ cid ev, chain.find? (fun p => p.2.pi == ent.pi) = some (cid, ev) ∧
        ent.pi = ev.pi ∧ ent.ts = ev.ts ∧ ent.chain_cid = cid := by
  intro chain
  induction chain with
  | nil =>
    intro seen ent h
    simp [walk_event_chain] at h
  | cons ce rest ih =>
    intro seen ent h
    obtain ⟨cid0, ev0⟩ := ce
    by_cases hpi : ev0.pi = ""
    · simp only [walk_event_chain, if_pos hpi] at h
      obtain ⟨h1, h2, cid, ev, hfind, hpe, hts, hcc⟩ := ih seen ent h
      have hne : ev0.pi ≠ ent.pi := by
        rw [hpi]
        exact fun hh => h2 hh.symm
      refine ⟨h1, h2, cid, ev, ?_, hpe, hts, hcc⟩
      rw [List.find?_cons_of_neg _ (by simp [hne])]
      exact hfind
    · by_cases hseen : ev0.pi ∈ seen
      · simp only [walk_event_chain, if_neg hpi, if_pos hseen] at h
        obtain ⟨h1, h2, cid, ev, hfind, hpe, hts, hcc⟩ := ih seen ent h
        have hne : ev0.pi ≠ ent.pi := fun he => h1 (he ▸ hseen)
        refine ⟨h1, h2, cid, ev, ?_, hpe, hts, hcc⟩
        rw [List.find?_cons_of_neg _ (by simp [hne])]
        exact hfind
      · rcases htip : tips ev0.pi with _ | tip
        · simp only [walk_event_chain, if_neg hpi, if_neg hseen, htip] at h
          obtain ⟨h1, h2, cid, ev, hfind, hpe, hts, hcc⟩ := ih _ ent h
          have h1' : ent.pi ∉ seen := fun hh => h1 (List.mem_cons_of_mem _ hh)
          have hne : ev0.pi ≠ ent.pi := fun he => h1 (he ▸ List.mem_cons_self _ _)
          refine ⟨h1', h2, cid, ev, ?_, hpe, hts, hcc⟩
          rw [List.find?_cons_of_neg _ (by simp [hne])]
          exact hfind
        · simp only [walk_event_chain, if_neg hpi, if_neg hseen, htip] at h
          rcases List.mem_cons.mp h with h | h
          · subst h
            refine ⟨hseen, hpi, cid0, ev0, ?_, rfl, rfl, rfl⟩
            exact List.find?_cons_of_pos _ (by simp)
          · obtain ⟨h1, h2, cid, ev, hfind, hpe, hts, hcc⟩ := ih _ ent h
            have h1' : ent.pi ∉ seen := fun hh => h1 (List.mem_cons_of_mem _ hh)
            have hne : ev0.pi ≠ ent.pi := fun he => h1 (he ▸ List.mem_cons_self _ _)
            refine ⟨h1', h2, cid, ev, ?_, hpe, hts, hcc⟩
            rw [List.find?_cons_of_neg _ (by simp [hne])]
            exact hfind

theorem lookup_map_set (k : String) (v : SnapEntry) :
    ∀ d : List (String × SnapEntry),
      lookupEntry k (d.map (fun p => if p.1 = k then (k, v) else p)) =
        if (d.any fun p => p.1 = k) = true then some v else none := by
  intro d
  induction d with
  | nil => simp [lookupEntry]
  | cons a rest ih =>
    obtain ⟨a1, a2⟩ := a
    by_cases ha : a1 = k
    · subst ha
      rw [List.map_cons, if_pos (show ((a1, a2) : String × SnapEntry).1 = a1 from rfl)]
      simp [lookupEntry]
    · rw [List.map_cons, if_neg (show ¬((a1, a2) : String × SnapEntry).1 = k from ha)]
      simp only [lookupEntry]
      rw [if_neg ha, ih]
      have hd : decide (a1 = k) = false := by simp [ha]
      rw [List.any_cons, hd, Bool.false_or]

theorem lookup_append_new (k : String) (v : SnapEntry) :
    ∀ d : List (String × SnapEntry), (d.any fun p => p.1 = k) = false →
      lookupEntry k (d ++ [(k, v)]) = some v := by
  intro d
  induction d with
  | nil =>
    intro _
    simp [lookupEntry]
  | cons a rest ih =>
    intro h
    obtain ⟨a1, a2⟩ := a
    simp only [List.any_cons, Bool.or_eq_false_iff, decide_eq_false_iff_not] at h
    rw [List.cons_append]
    simp only [lookupEntry]
    rw [if_neg h.1]
    exact ih (by simp [h.2])

theorem lookup_dictSet_self (d : List (String × SnapEntry)) (k : String) (v : SnapEntry) :
    lookupEntry k (dictSet d k v) = some v := by
  unfold dictSet
  by_cases hany : (d.any fun p => p.1 = k) = true
  · rw [if_pos hany, lookup_map_set, if_pos hany]
  · rw [if_neg hany]
    rw [Bool.not_eq_true] at hany
    exact lookup_append_new k v d hany

theorem lookup_map_set_ne (k k2 : String) (v : SnapEntry) (hne : k2 ≠ k) :
    ∀ d : List (String × SnapEntry),
      lookupEntry k2 (d.map (fun p => if p.1 = k then (k, v) else p)) =
        lookupEntry k2 d := by
  intro d
  induction d with
  | nil => rfl
  | cons a rest ih =>
    obtain ⟨a1, a2⟩ := a
    simp only [List.map_cons]
    by_cases ha : a1 = k
    · subst ha
      rw [if_pos rfl]
      simp only [lookupEntry]
      rw [if_neg (Ne.symm hne), if_neg (Ne.symm hne), ih]
    · rw [if_neg (show ¬(a1, a2).1 = k from ha)]
      simp only [lookupEntry]
      by_cases hak : a1 = k2
      · rw [if_pos hak, if_pos hak]
      · rw [if_neg hak, if_neg hak, ih]

theorem lookup_append_ne (k k2 : String) (v : SnapEntry) (hne : k2 ≠ k) :
    ∀ d : List (String × SnapEntry),
      lookupEntry k2 (d ++ [(k, v)]) = lookupEntry k2 d := by
  intro d
  induction d with
  | nil =>
    simp only [List.nil_append, lookupEntry]
    rw [if_neg (Ne.symm hne)]
  | cons a rest ih =>
    obtain ⟨a1, a2⟩ := a
    rw [List.cons_append]
    simp only [lookupEntry]
    by_cases hak : a1 = k2
    · rw [if_pos hak, if_pos hak]
    · rw [if_neg hak, if_neg hak, ih]

theorem lookup_dictSet_ne (d : List (String × SnapEntry)) (k k2 : String) (v : SnapEntry)
    (hne : k2 ≠ k) :
    lookupEntry k2 (dictSet d k v) = lookupEntry k2 d := by
  unfold dictSet
  by_cases hany : (d.any fun p => p.1 = k) = true
  · rw [if_pos hany]
    exact lookup_map_set_ne k k2 v hne d
  · rw [if_neg hany]
    exact lookup_append_ne k k2 v hne d

theorem walkInc_lookup_frozen (tips : String → Option String)
    (ms : String → Option VerManifest) (stop : String) :
    ∀ (chain : List (String × ChainEvent)) (d : List (String × SnapEntry)) (pi : String),
      (∀ p ∈ incProcessed stop chain, p.2.pi ≠ pi) →
      lookupEntry pi (walk_event_chain_incremental tips ms stop chain d) =
        lookupEntry pi d := by
  intro chain
  induction chain with
  | nil => intro d pi _; rfl
  | cons ce rest ih =>
    intro d pi hfro
    obtain ⟨cid0, ev0⟩ := ce
    by_cases hguard : cid0 = "" ∨ cid0 = stop
    · simp only [walk_event_chain_incremental, if_pos hguard]
    · have hproc : incProcessed stop ((cid0, ev0) :: rest) =
          (cid0, ev0) :: incProcessed stop rest := by
        simp [incProcessed, List.takeWhile_cons, hguard]
        exact not_or.mp hguard
      rw [hproc] at hfro
      have hev0 : ev0.pi ≠ pi := hfro _ (List.mem_cons_self _ _)
      have hrest : ∀ p ∈ incProcessed stop rest, p.2.pi ≠ pi :=
        fun p hp => hfro p (List.mem_cons_of_mem _ hp)
      simp only [walk_event_chain_incremental, if_neg hguard]
      by_cases hpi0 : ev0.pi = ""
      · rw [if_pos hpi0]
        exact ih d pi hrest
      · rw [if_neg hpi0]
        rcases htip : tips ev0.pi with _ | tip
        · exact ih d pi hrest
        · rw [ih _ pi hrest]
          exact lookup_dictSet_ne _ _ _ _ (Ne.symm hev0)

theorem walkInc_last_encounter (tips : String → Option String)
    (ms : String → Option VerManifest) (stop : String) :
    ∀ (chain : List (String × ChainEvent)) (d : List (String × SnapEntry))
      (pi tip cid : String) (ev : ChainEvent),
      tips pi = some tip → pi ≠ "" →
      (incProcessed stop chain).reverse.find? (fun p => p.2.pi == pi) = some (cid, ev) →
      lookupEntry pi (walk_event_chain_incremental tips ms stop chain d) =
        some ⟨pi, verOf ms tip, tip, ev.ts, cid⟩ := by
  intro chain
  induction chain with
  | nil =>
    intro d pi tip cid ev _ _ hfind
    simp [incProcessed] at hfind
  | cons ce rest ih =>
    intro d pi tip cid ev htips hpin hfind
    obtain ⟨cid0, ev0⟩ := ce
    by_cases hguard : cid0 = "" ∨ cid0 = stop
    · exfalso
      simp only [incProcessed, List.takeWhile_cons] at hfind
      rw [if_neg (by simp [hguard])] at hfind
      simp at hfind
    · have hproc : incProcessed stop ((cid0, ev0) :: rest) =
          (cid0, ev0) :: incProcessed stop rest := by
        simp [incProcessed, List.takeWhile_cons, hguard]
        exact not_or.mp hguard
      rw [hproc, List.reverse_cons, List.find?_append] at hfind
      simp only [walk_event_chain_incremental, if_neg hguard]
      rcases hrec : (incProcessed stop rest).reverse.find? (fun p => p.2.pi == pi)
        with _ | res
      · rw [hrec, Option.none_or] at hfind
        rcases hp : (ev0.pi == pi) with _ | _
        · rw [List.find?_cons_of_neg _ (by simp [hp])] at hfind
          simp at hfind
        · rw [List.find?_cons_of_pos _ (by simp [hp])] at hfind
          have hpair : (cid0, ev0) = (cid, ev) := Option.some.inj hfind
          injection hpair with hcid hev
          have hev0pi : ev0.pi = pi := by simpa using hp
          rw [if_neg (show ¬ ev0.pi = "" by rw [hev0pi]; exact hpin)]
          simp only [hev0pi, htips]
          have hfro : ∀ p ∈ incProcessed stop rest, p.2.pi ≠ pi := by
            intro p hp2
            have := List.find?_eq_none.mp hrec p (List.mem_reverse.mpr hp2)
            simpa using this
          rw [walkInc_lookup_frozen tips ms stop rest _ pi hfro, lookup_dictSet_self]
          rw [← hcid, ← hev]
      · rw [hrec] at hfind
        have hor : (some res).or
            (List.find? (fun p => p.2.pi == pi) [(cid0, ev0)]) = some res := rfl
        rw [hor] at hfind
        by_cases hpi0 : ev0.pi = ""
        · rw [if_pos hpi0]
          exact ih d pi tip cid ev htips hpin (hrec.trans hfind)
        · rw [if_neg hpi0]
          rcases htip0 : tips ev0.pi with _ | t0
          · exact ih d pi tip cid ev htips hpin (hrec.trans hfind)
          · exact ih _ pi tip cid ev htips hpin (hrec.trans hfind)

/-- C3 counterexample.  A concrete incremental build whose emitted
entries are not ordered by ts: the previous snapshot held only A, the
delta holds a create of B (newest) and then an update of A, and the
emitted array comes out newest-first [B, A] because the builder merely
reverses the hydrated dict and never sorts by ts. -/
theorem c3_counterexample_incremental_unsorted :
    build_snapshot_entries_incremental tipsCX manifestsCX "e1" chainCX prevEntriesCX =
      [⟨"B", 1, "tipB", "2024-01-03T00:00:00Z", "e3"⟩,
       ⟨"A", 2, "tipA2", "2024-01-02T00:00:00Z", "e2"⟩]
  ∧ ¬ EntriesChronological
      (build_snapshot_entries_incremental tipsCX manifestsCX "e1" chainCX prevEntriesCX) := by
  constructor
  · decide
  · intro h
    rw [EntriesChronological] at h
    revert h
    decide

/-- C3 as amended.  A full snapshot build emits its entries oldest
first: the builder reverses the walk order, so whenever the event
chain's ts values are non-increasing from the head backwards (which the
append path guarantees), the emitted entries array is non-decreasing in
ts.  An incremental build performs no sort by ts and its output need
not be ordered by ts (see the counterexample). -/
theorem c3_full_build_chronological (tips : String → Option String)
    (ms : String → Option VerManifest) (chain : List (String × ChainEvent))
    (hts : chain.Pairwise (fun a b => strLe b.2.ts a.2.ts = true)) :
    EntriesChronological (build_snapshot_entries_full tips ms chain) := by
  have hsub := walk_ts_sublist tips ms chain []
  have h2 : (chain.map fun p => p.2.ts).Pairwise (fun x y => strLe y x = true) :=
    List.pairwise_map.mpr hts
  have h3 := List.Pairwise.sublist hsub h2
  have h4 : (walk_event_chain tips ms chain []).Pairwise
      (fun a b => strLe b.ts a.ts = true) := List.pairwise_map.mp h3
  rw [EntriesChronological, build_snapshot_entries_full]
  exact List.pairwise_reverse.mpr h4

/-- Witness for C3 as amended: the fixture chain has non-increasing ts
from the head, and the full build over it comes out oldest first. -/
theorem c3_full_build_chronological_witness :
    chainCX.Pairwise (fun a b => strLe b.2.ts a.2.ts = true)
  ∧ EntriesChronological (build_snapshot_entries_full tipsCX manifestsCX chainCX) :=
  ⟨by decide, c3_full_build_chronological tipsCX manifestsCX chainCX (by decide)⟩

/-- C4 counterexample.  In a concrete incremental walk whose delta holds
two events for the same PI A — f3 (newest, first encountered) and then
f2 — the emitted entry for A carries ts and chain_cid from f2, the LAST
event encountered, not from the first-encountered f3 as the claim
states. -/
theorem c4_counterexample_incremental_last_wins :
    build_snapshot_entries_incremental tipsCX manifestsCX "f1" chainCX4 [] =
      [⟨"A", 2, "tipA2", "2024-01-02T00:00:00Z", "f2"⟩]
  ∧ chainCX4.find? (fun p => p.2.pi == "A") =
      some ("f3", ⟨"update", "A", "2024-01-03T00:00:00Z"⟩)
  ∧ ("f2" : String) ≠ "f3" := by
  refine ⟨by decide, by decide, by decide⟩

/-- C4 as amended.  In a full walk the first event encountered for a PI
determines its entry (its ts and chain_cid come from that event, the
chronologically newest); in an incremental walk it is instead the last
event encountered in the walked range for that PI (the chronologically
oldest of the delta) that determines the entry's ts and chain_cid,
because each later-encountered event overwrites the dict slot. -/
theorem c4_first_encounter_full_last_encounter_incremental
    (tips : String → Option String) (ms : String → Option VerManifest) :
    (∀ (chain : List (String × ChainEvent)) (ent : SnapEntry),
       ent ∈ build_snapshot_entries_full tips ms chain →
       ∃ cid ev, chain.find? (fun p => p.2.pi == ent.pi) = some (cid, ev) ∧
         ent.pi = ev.pi ∧ ent.ts = ev.ts ∧ ent.chain_cid = cid)
  ∧ (∀ (stop : String) (chain : List (String × ChainEvent))
       (d : List (String × SnapEntry)) (pi tip cid : String) (ev : ChainEvent),
       tips pi = some tip → pi ≠ "" →
       (incProcessed stop chain).reverse.find? (fun p => p.2.pi == pi) = some (cid, ev) →
       lookupEntry pi (walk_event_chain_incremental tips ms stop chain d) =
         some ⟨pi, verOf ms tip, tip, ev.ts, cid⟩) := by
  constructor
  · intro chain ent hmem
    have hm : ent ∈ walk_event_chain tips ms chain [] := by
      rw [build_snapshot_entries_full] at hmem
      exact List.mem_reverse.mp hmem
    exact (walk_event_chain_first_encounter tips ms chain [] ent hm).2.2
  · intro stop chain d pi tip cid ev h1 h2 h3
    exact walkInc_last_encounter tips ms stop chain d pi tip cid ev h1 h2 h3

end Arke
